import Mathlib

/-!
Verification of the ftraman acquisition/processing pipeline.

This file shallowly embeds the parts of the repository the claims are
about:

* `mcftrs.py` — `Spectra.fft`, `Spectra.set_data`, `Spectra.set_accum`,
  the axis helpers `_inv`, `_raman`, `_invraman`;
* `ftraman.py` — the `Updater.run` acquisition-loop body;
* `camera.py` / `cameras.py` — `TCE1304.set_exposure`, `SK2048.set_exposure`,
  `TCE1304.get_frame`.

Frames and buffers are lists of real numbers (Python floats are modelled
as reals); numpy row-wise operations become list operations; the shared
mutable `self.camera` field of the updater thread is modelled by an
environment function giving the value of the field at each successive
read inside one loop iteration; code that can raise an uncaught Python
exception returns `Option`/`Except`.
-/

namespace FtRaman

/-- The discrete Fourier transform of `M` samples (numpy `fft.fft`
convention, unnormalised, kernel `exp (-2·π·i·j·k/M)`), value at bin `k`. -/
noncomputable def dft (M : ℕ) (x : ℕ → ℂ) (k : ℕ) : ℂ :=
  ∑ j ∈ Finset.range M, x j * Complex.exp (-2 * Real.pi * Complex.I * j * k / M)

/-- Embeds `np.sum(rows, axis=0)` for a matrix with `w` columns: the
elementwise sum of the rows. -/
noncomputable def colSum (w : ℕ) (rows : List (List ℝ)) : List ℝ :=
  (List.range w).map fun i => (rows.map fun r => r.getD i 0).sum

/-- Embeds `np.average(rows, axis=0)`: elementwise mean over the rows (the
column count is the width of the first row, as for a rectangular numpy
array). -/
noncomputable def colAvg (rows : List (List ℝ)) : List ℝ :=
  (colSum (rows.headD []).length rows).map fun v => v / rows.length

/-- The mutable state of an `mcftrs.Spectra` canvas that the accumulation
claims are about: the write cursor `self.index`, the raw accumulation
buffer `self.raw_data`, the spectral accumulation buffer `self.fft_data`,
and the camera geometry `self.pixel_count` used by `set_accum`. -/
structure SpectraState where
  pixel_count : ℕ
  index : ℕ
  raw_data : List (List ℝ)
  fft_data : List (List ℝ)

/-- Embeds `Spectra.set_accum(accum)` (mcftrs.py:171-174): reset the cursor
to 0 and allocate zero-filled `accum × pixel_count` and
`accum × 4·pixel_count` buffers. -/
def Spectra_set_accum (s : SpectraState) (accum : ℕ) : SpectraState :=
  { s with
    index := 0
    raw_data := List.replicate accum (List.replicate s.pixel_count 0)
    fft_data := List.replicate accum (List.replicate (4 * s.pixel_count) 0) }

/-- Embeds `Spectra.fft(data)` (mcftrs.py:176-180): with
`size = data.shape[1]`, pad each row with `7·size` zeros, take the DFT of
each padded row, keep bins `1 .. 4·size`, and return `7.5 * |·| / size`. -/
noncomputable def Spectra_fft (data : List (List ℝ)) : List (List ℝ) :=
  let size := (data.headD []).length
  data.map fun row =>
    (List.range (4 * size)).map fun k =>
      7.5 * Complex.abs (dft (8 * size) (fun j => ((row.getD j 0 : ℝ) : ℂ)) (k + 1)) / size

/-- Embeds `Spectra.set_data(data)` (mcftrs.py:182-196), the state-relevant
part: sum the incoming rows and their spectra, wrap the cursor if it ran
past the buffer depth, and only if the summed row's length matches the
current slot's length overwrite the slot and advance the cursor.  The
value `none` models an uncaught `IndexError` (possible only when the buffer
is empty); the drawing calls at the end of the method do not touch this
state. -/
noncomputable def Spectra_set_data (s : SpectraState) (data : List (List ℝ)) :
    Option SpectraState :=
  let rawRow := colSum (data.headD []).length data
  let fftRow := colSum (4 * (data.headD []).length) (Spectra_fft data)
  let i := if s.raw_data.length ≤ s.index then 0 else s.index
  match s.raw_data[i]? with
  | none => none
  | some slot =>
    if rawRow.length = slot.length then
      some { s with
              index := i + 1
              raw_data := s.raw_data.set i rawRow
              fft_data := s.fft_data.set i fftRow }
    else
      some { s with index := i }

/-- Push a sequence of 1-row frames (each `get_frame` result has shape
`(1, n)`) through `Spectra.set_data`, stopping at the first uncaught
exception. -/
noncomputable def pushRows (s : SpectraState) (frames : List (List ℝ)) :
    Option SpectraState :=
  frames.foldl (fun acc r => acc.bind fun st => Spectra_set_data st [r]) (some s)

/-- A `Spectra` canvas as built for a camera with `w` pixels, before any
`set_accum`. -/
def initSpectra (w : ℕ) : SpectraState :=
  { pixel_count := w, index := 0, raw_data := [], fft_data := [] }

/-- The contents of slot `i` of the raw accumulation buffer after the frames
`rows` have been pushed, one per `set_data` call, into a freshly reset
depth-`d`, width-`w` buffer: the most recently pushed row whose push wrote
slot `i`, or the zero row the reset left there if no push wrote slot `i`. -/
noncomputable def slotAfter (d w : ℕ) (rows : List (List ℝ)) (i : ℕ) : List ℝ :=
  if i < rows.length then rows.getD (rows.length - 1 - ((rows.length - 1 - i) % d)) []
  else List.replicate w 0

/-- The magnitude-spectrum transform exactly as the claim words it: zero-pad
the length-`N` trace to `padFactor·N`, take the DFT, keep bins `1 .. 4N`,
take magnitudes, and scale by `(padFactor − 1)·15/(16·N)`.  (Follows the
spec sentence, for comparison against `Spectra_fft`.) -/
noncomputable def specMagnitudeSpectrum (padFactor : ℕ) (trace : List ℝ) : List ℝ :=
  (List.range (4 * trace.length)).map fun k =>
    ((padFactor - 1 : ℕ) : ℝ) * 15 / (16 * trace.length) *
      Complex.abs (dft (padFactor * trace.length) (fun j => ((trace.getD j 0 : ℝ) : ℂ)) (k + 1))

/-- The amended magnitude-spectrum formula: as `specMagnitudeSpectrum`, but
with the scale `padFactor·15/(16·N)` (exactly `7.5/N` for the default
factor 8), which is the constant the code actually applies. -/
noncomputable def specMagnitudeSpectrumFixed (padFactor : ℕ) (trace : List ℝ) : List ℝ :=
  (List.range (4 * trace.length)).map fun k =>
    ((padFactor : ℕ) : ℝ) * 15 / (16 * trace.length) *
      Complex.abs (dft (padFactor * trace.length) (fun j => ((trace.getD j 0 : ℝ) : ℂ)) (k + 1))

/-- Embeds `Spectra._inv` (mcftrs.py:75) and `Spectrum._inv`
(ftraman.py:122): `np.divide(1, x, where=x!=0)` on one entry.  Where the
mask is true this is the quotient `1/x`; where it is false (`x = 0`)
`np.divide` without an `out=` argument leaves the freshly allocated output
entry uninitialised, so the result is whatever value that memory held —
modelled here by the unspecified parameter `junk`. -/
noncomputable def Spectra_inv (junk x : ℝ) : ℝ := if x ≠ 0 then 1 / x else junk

/-- Embeds `Spectra._raman` (mcftrs.py:76): `1e7 * (1/λ₀ − _inv(λ))`, the
Raman shift in cm⁻¹ of wavelength `lam` against center wavelength `lam0`. -/
noncomputable def Spectra_raman (junk lam0 lam : ℝ) : ℝ :=
  1e7 * (1 / lam0 - Spectra_inv junk lam)

/-- Embeds `Spectra._invraman` (mcftrs.py:77): `_inv(1/λ₀ − Δ/1e7)`, the
wavelength whose Raman shift against `lam0` is `shift`. -/
noncomputable def Spectra_invraman (junk lam0 shift : ℝ) : ℝ :=
  Spectra_inv junk (1 / lam0 - shift / 1e7)

/-- Python `int(x)`: truncation toward zero. -/
noncomputable def pyInt (x : ℝ) : ℤ := if x < 0 then ⌈x⌉ else ⌊x⌋

/-- One USB command written by `TCE1304._write(cmd, *data)`. -/
structure UsbWrite where
  cmd : ℕ
  payload : List ℤ

/-- The state of a `camera.TCE1304` relevant to `set_exposure`: the cached
`self.exposure` (ms), the bounds fixed in `__init__`, and the encoded
register value `self._exposure`. -/
structure TCE1304State where
  exposure : ℝ
  min_exposure : ℝ
  max_exposure : ℝ
  exposure_reg : ℤ

/-- Embeds `TCE1304.set_exposure(exposure)` (camera.py:90-98): raise the
request to `min_exposure` and lower it to `max_exposure`, and only when the
clamped value differs from the cached one store it, encode it as
`int(10·exposure)` and write the two USB commands (`0x31` with the
register's two bytes, then `0x30 0`).  The second component is the list of
hardware command writes performed. -/
noncomputable def TCE1304_set_exposure (s : TCE1304State) (exposure : ℝ) :
    TCE1304State × List UsbWrite :=
  let e1 := if exposure < s.min_exposure then s.min_exposure else exposure
  let e2 := if e1 > s.max_exposure then s.max_exposure else e1
  if e2 ≠ s.exposure then
    let r := pyInt (10 * e2)
    ({ s with exposure := e2, exposure_reg := r },
      [⟨0x31, [r / 0x100, r % 0x100]⟩, ⟨0x30, [0]⟩])
  else (s, [])

/-- The state of a `camera.SK2048` relevant to `set_exposure`. -/
structure SK2048State where
  exposure : ℝ
  min_exposure : ℝ
  max_exposure : ℝ

/-- One `SK_SETEXPOSURETIME` call into the SK91USB3 DLL. -/
structure DllWrite where
  exposure_time : ℝ

/-- Embeds `SK2048.set_exposure(exposure)` (camera.py:152-159): the same
clamping, then a single `SK_SETEXPOSURETIME` DLL call only when the clamped
value differs from the cached one. -/
noncomputable def SK2048_set_exposure (s : SK2048State) (exposure : ℝ) :
    SK2048State × List DllWrite :=
  let e1 := if exposure < s.min_exposure then s.min_exposure else exposure
  let e2 := if e1 > s.max_exposure then s.max_exposure else e1
  if e2 ≠ s.exposure then
    ({ s with exposure := e2 }, [⟨e2⟩])
  else (s, [])

/-- The two sequential clamping `if` statements of `set_exposure`. -/
noncomputable def clampTwoStep (lo hi x : ℝ) : ℝ :=
  if (if x < lo then lo else x) > hi then hi else (if x < lo then lo else x)

/-- Failure modes of `TCE1304.get_frame` (camera.py:100-107). -/
inductive TceFault where
  | shortTransfer
  | dataReadError
deriving DecidableEq

/-- Embeds `TCE1304.get_frame()` (camera.py:100-107), as a function of the
encoded exposure register `self._exposure` and of the `<u2` words `resp`
that the 7680-byte bulk read returned: a transfer too short to index word
3833 raises (`IndexError`), an echoed-exposure word differing from the
register raises (`RuntimeError`); otherwise the dark-current average of
words 16…28 is subtracted from words 32…3679 and the result is normalised
by 65536. -/
noncomputable def TCE1304_get_frame (exposure_reg : ℤ) (resp : List ℕ) :
    Except TceFault (List ℝ) :=
  if resp.length < 3834 then .error .shortTransfer
  else if (resp.getD 3833 0 : ℤ) ≠ exposure_reg then .error .dataReadError
  else
    let dark := ((List.range 13).map fun i => (resp.getD (16 + i) 0 : ℝ)).sum / 13
    .ok ((List.range 3648).map fun i => ((resp.getD (32 + i) 0 : ℝ) - dark) / 65536)

/-- Whether a fallible call completed without raising. -/
def exceptOk {ε α : Type} : Except ε α → Bool
  | .ok _ => true
  | .error _ => false

/-- The state of the `ftraman.Updater` thread across loop iterations: the
accumulation matrices `self.raw_data` / `self.fft_data`, the display window
`self._min` / `self._max` set by `set_accum_count`, and the loop-local
`counter`. -/
structure UpdaterState where
  raw_data : List (List ℝ)
  fft_data : List (List ℝ)
  win_min : ℕ
  win_max : ℕ
  counter : ℕ

/-- Models `self.raw_data[counter, :n] = data`: the frame written over the
first `n` entries of the extended row, the tail left as it was. -/
def overwriteHead (row : List ℝ) (n : ℕ) (data : List ℝ) : List ℝ :=
  data.take n ++ row.drop n

/-- One un-paused iteration of the body of `ftraman.Updater.run`
(ftraman.py:103-118).  The shared field `self.camera` is read six times in
the body and the control thread may reassign it at any moment (in
particular while `get_line()` blocks), so the η-th read yields `env η`:
read 0 is the snapshot `camera = self.camera`, read 1 the
`self.camera.get_line()` receiver, read 2 the re-read in the guard
`camera == self.camera`, and reads 3-5 the `self.camera.n` uses inside the
guarded block.  `pixelOf` maps a camera to its pixel count `n` and
`getLine` to the frame its `get_line()` returned.  The result is the new
state, the `handler(y1, y2)` publication if one happened, and the camera
`get_line` was invoked on. -/
noncomputable def Updater_run_iter (env : ℕ → ℕ) (pixelOf : ℕ → ℕ)
    (getLine : ℕ → List ℝ) (s : UpdaterState) :
    UpdaterState × Option (List ℝ × List ℝ) × ℕ :=
  let data := getLine (env 1)
  let counter := if s.raw_data.length ≤ s.counter then 0 else s.counter
  if env 0 = env 2 then
    let row := overwriteHead (s.raw_data.getD counter []) (pixelOf (env 3)) data
    let raw2 := s.raw_data.set counter row
    let fftRow := (List.range row.length).map fun k =>
      10 * Complex.abs (dft row.length (fun j => ((row.getD j 0 : ℝ) : ℂ)) k /
        (pixelOf (env 4) : ℂ))
    let fft2 := s.fft_data.set counter fftRow
    let y1 := (colAvg raw2).take (pixelOf (env 5))
    let y2 := ((colAvg fft2).drop s.win_min).take (s.win_max - s.win_min)
    ({ s with raw_data := raw2, fft_data := fft2, counter := counter + 1 },
      some (y1, y2), env 1)
  else
    ({ s with counter := counter }, none, env 1)

lemma length_colSum (w : ℕ) (rows : List (List ℝ)) : (colSum w rows).length = w := by
  simp [colSum]

lemma getD_replicate_zero (w i : ℕ) : (List.replicate w (0:ℝ)).getD i 0 = 0 := by
  rcases lt_or_ge i w with h | h
  · rw [List.getD_eq_getElem?_getD, List.getElem?_replicate, if_pos h]; rfl
  · rw [List.getD_eq_getElem?_getD, List.getElem?_replicate, if_neg (by omega)]; rfl

lemma map_getD_range (l : List ℝ) :
    (List.range l.length).map (fun i => l.getD i 0) = l := by
  apply List.ext_getElem
  · simp
  · intro i h1 h2
    simp [List.getD_eq_getElem?_getD, List.getElem?_eq_getElem h2]

/-- A one-row matrix column-sums to its single row. -/
lemma colSum_singleton (r : List ℝ) : colSum r.length [r] = r := by
  unfold colSum
  have : ∀ i, (([r] : List (List ℝ)).map fun row => row.getD i 0).sum = r.getD i 0 := by
    intro i; simp
  simp only [this]
  exact map_getD_range r

lemma mod_pred {a d : ℕ} (hd : 0 < d) (h : a % d ≠ 0) : (a - 1) % d = a % d - 1 := by
  have h1 := Nat.div_add_mod a d
  have h2 : a % d < d := Nat.mod_lt a hd
  have h3 : a - 1 = d * (a / d) + (a % d - 1) := by omega
  rw [h3, Nat.mul_add_mod, Nat.mod_eq_of_lt (by omega)]

lemma wrap_succ_mod {d n : ℕ} (hd : 0 < d) :
    (if d ≤ n % d + 1 then 0 else n % d + 1) = (n + 1) % d := by
  have h2 : n % d < d := Nat.mod_lt n hd
  have h1 := Nat.div_add_mod n d
  have key : (n + 1) % d = (n % d + 1) % d := by
    conv_lhs => rw [show n + 1 = d * (n / d) + (n % d + 1) by omega]
    rw [Nat.mul_add_mod]
  rw [key]
  split
  · next hle =>
    have h3 : n % d + 1 = d := by omega
    rw [h3, Nat.mod_self]
  · next hlt =>
    rw [Nat.mod_eq_of_lt (show n % d + 1 < d by omega)]

lemma slotAfter_append {d w : ℕ} (hd : 0 < d) (l : List (List ℝ)) (r : List ℝ)
    (j : ℕ) (hj : j < d) (hne : j ≠ l.length % d) :
    slotAfter d w (l ++ [r]) j = slotAfter d w l j := by
  have hlen : (l ++ [r]).length = l.length + 1 := by simp
  rcases lt_or_ge j l.length with hjn | hjn
  · -- slot j was last written strictly before the new push: same row as before
    have hamod : (l.length - j) % d ≠ 0 := by
      intro h0
      apply hne
      have h1 := Nat.div_add_mod (l.length - j) d
      have h2 : l.length = j + d * ((l.length - j) / d) := by omega
      rw [h2, Nat.add_mul_mod_self_left, Nat.mod_eq_of_lt hj]
    have hpred : (l.length - j - 1) % d = (l.length - j) % d - 1 := mod_pred hd hamod
    have hmodlt : (l.length - j) % d < d := Nat.mod_lt _ hd
    have hmodle : (l.length - j) % d ≤ l.length - j := Nat.mod_le _ _
    have hmodpos : 1 ≤ (l.length - j) % d := by omega
    unfold slotAfter
    rw [if_pos (by omega : j < (l ++ [r]).length), if_pos hjn, hlen]
    have e1 : l.length + 1 - 1 - j = l.length - j := by omega
    have e2 : l.length - 1 - j = l.length - j - 1 := by omega
    rw [e1, e2, hpred]
    have e3 : l.length + 1 - 1 - (l.length - j) % d = l.length - (l.length - j) % d := by
      omega
    have e4 : l.length - 1 - ((l.length - j) % d - 1) = l.length - (l.length - j) % d := by
      omega
    rw [e3, e4]
    exact List.getD_append _ _ _ _ (by omega)
  · -- slot j has never been written: it still holds the reset's zero row
    unfold slotAfter
    rcases lt_or_ge l.length d with hnd | hnd
    · have hne2 : j ≠ l.length := fun h => hne (by rw [h, Nat.mod_eq_of_lt hnd])
      rw [if_neg (by omega), if_neg (by omega)]
    · omega

lemma slotAfter_append_self {d w : ℕ} (l : List (List ℝ)) (r : List ℝ) :
    slotAfter d w (l ++ [r]) (l.length % d) = r := by
  unfold slotAfter
  have hmod : l.length % d ≤ l.length := Nat.mod_le _ _
  have hlen : (l ++ [r]).length = l.length + 1 := by simp
  rw [if_pos (by omega), hlen]
  have e1 : l.length + 1 - 1 = l.length := by omega
  rw [e1]
  have e2 : (l.length - l.length % d) % d = 0 := by
    have h1 := Nat.div_add_mod l.length d
    have h3 : l.length - l.length % d = d * (l.length / d) := by omega
    rw [h3, Nat.mul_mod_right]
  rw [e2, Nat.sub_zero, List.getD_append_right _ _ _ _ (le_refl _)]
  simp

lemma slotAfter_last {d w : ℕ} (hd : 0 < d) (rows : List (List ℝ)) (m : ℕ)
    (h1 : rows.length ≤ m + d) (h2 : m < rows.length) :
    slotAfter d w rows (m % d) = rows.getD m [] := by
  unfold slotAfter
  have hmlt : m % d < d := Nat.mod_lt _ hd
  have hmle : m % d ≤ m := Nat.mod_le _ _
  rw [if_pos (by omega)]
  congr 1
  have hq := Nat.div_add_mod m d
  have e1 : rows.length - 1 - m % d = (rows.length - 1 - m) + d * (m / d) := by omega
  rw [e1, Nat.add_mul_mod_self_left, Nat.mod_eq_of_lt (by omega)]
  omega

lemma succ_mod_of_pred {d n : ℕ} (hd : 0 < d) (hn : 0 < n) :
    ((n - 1) % d + 1) % d = n % d := by
  have h := wrap_succ_mod (d := d) (n := n - 1) hd
  rw [show n - 1 + 1 = n by omega] at h
  rcases le_or_lt d ((n - 1) % d + 1) with hle | hlt
  · rw [if_pos hle] at h
    have h2 : (n - 1) % d < d := Nat.mod_lt _ hd
    have h3 : (n - 1) % d + 1 = d := by omega
    rw [h3, Nat.mod_self, ← h]
  · rw [if_neg (by omega)] at h
    rw [Nat.mod_eq_of_lt hlt, h]

/-- A push of a single matching-width frame writes the (wrapped) cursor slot
and advances the cursor. -/
lemma set_data_single_success (s : SpectraState) (r : List ℝ) (i : ℕ)
    (hieq : (if s.raw_data.length ≤ s.index then 0 else s.index) = i)
    (hi : i < s.raw_data.length)
    (hslotlen : (s.raw_data[i]).length = r.length) :
    Spectra_set_data s [r] =
      some { s with
              index := i + 1
              raw_data := s.raw_data.set i r
              fft_data := s.fft_data.set i (colSum (4 * r.length) (Spectra_fft [r])) } := by
  unfold Spectra_set_data
  simp only [List.headD_cons, colSum_singleton, hieq, List.getElem?_eq_getElem hi]
  rw [if_pos hslotlen.symm]

/-- The circular-buffer invariant: pushing any list of width-`w` frames into
a freshly reset depth-`d` buffer succeeds, keeps the buffer rectangular of
shape `d × w`, leaves the cursor one past the last written slot (in the
code's lazy-wrap representation), and leaves every slot holding
`slotAfter`. -/
lemma pushRows_inv (d w : ℕ) (hd : 1 ≤ d) :
    ∀ rows : List (List ℝ), (∀ r ∈ rows, r.length = w) →
    ∃ s, pushRows (Spectra_set_accum (initSpectra w) d) rows = some s ∧
      s.raw_data.length = d ∧
      (∀ r ∈ s.raw_data, r.length = w) ∧
      s.index = (if rows.length = 0 then 0 else (rows.length - 1) % d + 1) ∧
      ∀ i < d, s.raw_data[i]? = some (slotAfter d w rows i) := by
  have hd0 : 0 < d := hd
  intro rows
  induction rows using List.reverseRecOn with
  | nil =>
    intro _
    refine ⟨Spectra_set_accum (initSpectra w) d, rfl, ?_, ?_, ?_, ?_⟩
    · simp [Spectra_set_accum, initSpectra]
    · intro r hr
      simp only [Spectra_set_accum, initSpectra] at hr
      rw [List.eq_of_mem_replicate hr]
      simp
    · simp [Spectra_set_accum]
    · intro i hi
      simp [Spectra_set_accum, initSpectra, slotAfter, List.getElem?_replicate, hi]
  | append_singleton l r ih =>
    intro hw
    have hwl : ∀ r' ∈ l, r'.length = w := fun r' hr' => hw r' (by simp [hr'])
    have hwr : r.length = w := hw r (by simp)
    obtain ⟨s, hpush, hlen, hmem, hindex, hslots⟩ := ih hwl
    have hi_eq : (if s.raw_data.length ≤ s.index then 0 else s.index) = l.length % d := by
      rw [hlen, hindex]
      rcases Nat.eq_zero_or_pos l.length with h0 | hpos
      · simp [h0, hd0, Nat.not_le.mpr hd0]
      · rw [if_neg (by omega : ¬ l.length = 0), wrap_succ_mod hd0]
        congr 1
        omega
    have hi_lt : l.length % d < s.raw_data.length := by
      rw [hlen]; exact Nat.mod_lt _ hd0
    have hslotlen : (s.raw_data[l.length % d]).length = r.length := by
      rw [hmem _ (List.getElem_mem hi_lt), hwr]
    have hstep : pushRows (Spectra_set_accum (initSpectra w) d) (l ++ [r]) =
        Spectra_set_data s [r] := by
      unfold pushRows at hpush ⊢
      rw [List.foldl_append, hpush]
      simp
    refine ⟨_, by rw [hstep, set_data_single_success s r (l.length % d) hi_eq hi_lt hslotlen],
      ?_, ?_, ?_, ?_⟩
    · simp [hlen]
    · intro r' hr'
      rcases List.mem_or_eq_of_mem_set hr' with h | h
      · exact hmem r' h
      · rw [h]; exact hwr
    · simp only [List.length_append, List.length_singleton]
      rw [if_neg (by omega), Nat.add_sub_cancel]
    · intro j hj
      rw [List.getElem?_set]
      rcases eq_or_ne (l.length % d) j with hcase | hcase
      · rw [if_pos hcase, if_pos (by omega), ← hcase, slotAfter_append_self]
      · rw [if_neg hcase, hslots j hj, slotAfter_append hd0 l r j hj (Ne.symm hcase)]

lemma colAvg_replicate_zero (d w : ℕ) (hd : 1 ≤ d) :
    colAvg (List.replicate d (List.replicate w (0:ℝ))) = List.replicate w 0 := by
  have hhead : (List.replicate d (List.replicate w (0:ℝ))).headD [] = List.replicate w 0 := by
    cases d with
    | zero => omega
    | succ n => simp [List.replicate_succ]
  unfold colAvg colSum
  rw [hhead]
  apply List.ext_getElem
  · simp
  · intro i h1 h2
    simp [List.map_replicate, getD_replicate_zero, List.sum_replicate]

/-- After `k ≤ depth` pushes into a fresh buffer the raw accumulation buffer
is literally the pushed rows followed by the remaining zero rows. -/
lemma pushRows_partial (d w k : ℕ) (hd : 1 ≤ d) (hk : k ≤ d) (rows : List (List ℝ))
    (hlen : rows.length = k) (hw : ∀ r ∈ rows, r.length = w) :
    ∃ s, pushRows (Spectra_set_accum (initSpectra w) d) rows = some s ∧
      s.raw_data = rows ++ List.replicate (d - k) (List.replicate w 0) := by
  obtain ⟨s, hpush, hblen, hmem, hindex, hslots⟩ := pushRows_inv d w hd rows hw
  refine ⟨s, hpush, ?_⟩
  apply List.ext_getElem?
  intro i
  rcases lt_or_ge i d with hid | hid
  · rw [hslots i hid]
    unfold slotAfter
    rcases lt_or_ge i k with hik | hik
    · rw [if_pos (by omega), hlen]
      have e1 : (k - 1 - i) % d = k - 1 - i := Nat.mod_eq_of_lt (by omega)
      rw [e1, show k - 1 - (k - 1 - i) = i by omega,
        List.getElem?_append_left (by omega),
        List.getD_eq_getElem rows [] (by omega), List.getElem?_eq_getElem (by omega)]
    · rw [if_neg (by omega), List.getElem?_append_right (by omega),
        List.getElem?_replicate, if_pos (by omega)]
  · rw [List.getElem?_eq_none (by omega),
      List.getElem?_eq_none (by simp only [List.length_append, List.length_replicate]; omega)]

lemma colAvg_append_pad (w d k : ℕ) (hd : 1 ≤ d) (hk : k ≤ d) (rows : List (List ℝ))
    (hlen : rows.length = k) (hw : ∀ r ∈ rows, r.length = w) :
    colAvg (rows ++ List.replicate (d - k) (List.replicate w 0)) =
      (colSum w rows).map (fun v => v / (d : ℝ)) := by
  have hlen2 : (rows ++ List.replicate (d - k) (List.replicate w (0:ℝ))).length = d := by
    simp only [List.length_append, List.length_replicate]
    omega
  have hhead : ((rows ++ List.replicate (d - k) (List.replicate w (0:ℝ))).headD []).length
      = w := by
    cases rows with
    | nil =>
      have hk0 : k = 0 := by simpa using hlen.symm
      subst hk0
      cases d with
      | zero => omega
      | succ n => simp [List.replicate_succ]
    | cons a t =>
      simp only [List.cons_append, List.headD_cons]
      exact hw a (by simp)
  unfold colAvg
  rw [hlen2, hhead]
  have hsum : ∀ i : ℕ,
      ((rows ++ List.replicate (d - k) (List.replicate w (0:ℝ))).map
        (fun r => r.getD i 0)).sum = (rows.map fun r => r.getD i 0).sum := by
    intro i
    rw [List.map_append, List.sum_append, List.map_replicate, getD_replicate_zero,
      List.sum_replicate, smul_zero, add_zero]
  unfold colSum
  simp only [hsum]

lemma clampTwoStep_mem (lo hi x : ℝ) (h : lo ≤ hi) :
    lo ≤ clampTwoStep lo hi x ∧ clampTwoStep lo hi x ≤ hi := by
  unfold clampTwoStep
  split_ifs with h1 h2 h3 <;> constructor <;> linarith

/-- Each iteration invokes `get_line()` on the camera that `self.camera`
holds at that moment (read 1), not on a stale local. -/
lemma run_iter_polls (env : ℕ → ℕ) (pixelOf : ℕ → ℕ) (getLine : ℕ → List ℝ)
    (s : UpdaterState) :
    (Updater_run_iter env pixelOf getLine s).2.2 = env 1 := by
  simp only [Updater_run_iter]
  split <;> rfl

/-- The padded one-sample trace `[1]` has every DFT bin equal to 1. -/
lemma dft_delta (M k : ℕ) (hM : 0 < M) :
    dft M (fun j => ((([(1:ℝ)] : List ℝ).getD j 0 : ℝ) : ℂ)) k = 1 := by
  unfold dft
  rw [Finset.sum_eq_single 0]
  · simp
  · intro j hj hne
    cases j with
    | zero => exact absurd rfl hne
    | succ m => simp
  · intro h
    exact absurd (Finset.mem_range.mpr hM) h

/-- C1 counterexample: on the one-sample trace `[1]` the code's transform
(`Spectra.fft`) returns entries `7.5` while the claimed formula, whose
scale is `(8−1)·15/(16·1) = 105/16`, returns entries `105/16 = 6.5625`;
the two arrays differ in every entry. -/
theorem claim_C1_counterexample :
    ((Spectra_fft [[1]]).headD []).getD 0 0 = 7.5
    ∧ (specMagnitudeSpectrum 8 [1]).getD 0 0 = 105 / 16
    ∧ (7.5 : ℝ) ≠ 105 / 16 := by
  refine ⟨?_, ?_, by norm_num⟩
  · unfold Spectra_fft
    simp only [List.headD_cons, List.map_cons, List.map_nil, List.length_singleton,
      Nat.mul_one, show List.range 4 = [0, 1, 2, 3] from rfl]
    rw [List.getD_cons_zero]
    rw [dft_delta 8 (0 + 1) (by norm_num)]
    simp
  · unfold specMagnitudeSpectrum
    simp only [List.length_singleton, Nat.mul_one,
      show List.range 4 = [0, 1, 2, 3] from rfl, List.map_cons]
    rw [List.getD_cons_zero]
    rw [dft_delta 8 (0 + 1) (by norm_num)]
    norm_num

/-- C1 (amended): for every real trace, `Spectra.fft` returns the spectrum
obtained by zero-padding to `8·N`, taking the DFT, keeping bins `[1, 4N]`,
taking magnitudes, and scaling by `8·15/(16·N) = 7.5/N` — not by
`(8−1)·15/(16·N)` as the claim stated. -/
theorem claim_C1_magnitude_spectrum (trace : List ℝ) :
    Spectra_fft [trace] = [specMagnitudeSpectrumFixed 8 trace] := by
  unfold Spectra_fft specMagnitudeSpectrumFixed
  simp only [List.headD_cons, List.map_cons, List.map_nil]
  congr 1
  apply List.map_congr_left
  intro k hk
  rcases Nat.eq_zero_or_pos trace.length with h0 | hpos
  · rw [h0] at hk
    simp at hk
  · have hN : ((trace.length : ℕ) : ℝ) ≠ 0 := by positivity
    field_simp
    ring

/-- C2: if the guard's re-read of `self.camera` (read 2) differs from the
snapshot taken at the top of the iteration (read 0) — a camera switch while
`get_line()` was blocked — the returned frame is discarded: neither
accumulation buffer changes, nothing is published to the handler, the
discard path raises nothing (it is a total function of the state), and a
following iteration under the stably switched camera polls the new camera
for its frame. -/
theorem claim_C2_hot_swap (env env2 : ℕ → ℕ) (pixelOf : ℕ → ℕ)
    (getLine : ℕ → List ℝ) (s : UpdaterState)
    (hswap : env 0 ≠ env 2)
    (hstable : ∀ i, env2 i = env 2) :
    (Updater_run_iter env pixelOf getLine s).1.raw_data = s.raw_data
    ∧ (Updater_run_iter env pixelOf getLine s).1.fft_data = s.fft_data
    ∧ (Updater_run_iter env pixelOf getLine s).2.1 = none
    ∧ (Updater_run_iter env2 pixelOf getLine
        (Updater_run_iter env pixelOf getLine s).1).2.2 = env 2 := by
  refine ⟨?_, ?_, ?_, by rw [run_iter_polls]; exact hstable 1⟩ <;>
    (simp only [Updater_run_iter]; rw [if_neg hswap])

theorem claim_C2_hot_swap_witness :
    (Updater_run_iter id (fun _ => 1) (fun _ => [1])
        ⟨[[0]], [[0]], 0, 1, 0⟩).1.raw_data = [[0]]
    ∧ (Updater_run_iter id (fun _ => 1) (fun _ => [1])
        ⟨[[0]], [[0]], 0, 1, 0⟩).2.1 = none
    ∧ (Updater_run_iter (fun _ => 2) (fun _ => 1) (fun _ => [1])
        (Updater_run_iter id (fun _ => 1) (fun _ => [1])
          ⟨[[0]], [[0]], 0, 1, 0⟩).1).2.2 = id 2 := by
  have h := claim_C2_hot_swap id (fun _ => 2) (fun _ => 1) (fun _ => [1])
    ⟨[[0]], [[0]], 0, 1, 0⟩ (by decide) (fun i => rfl)
  exact ⟨h.1, h.2.2.1, h.2.2.2⟩

/-- C3 counterexample: in the reachable state where the cursor sits one past
the end of a depth-1 buffer (`index = 1 = depth`, the state left behind by
the previous successful push), pushing a frame of mismatched width 2 resets
the cursor to 0: the write cursor is *not* left unchanged. -/
theorem claim_C3_counterexample :
    (Spectra_set_data
        { pixel_count := 1, index := 1, raw_data := [[0]], fft_data := [[0, 0, 0, 0]] }
        [[1, 2]]).map SpectraState.index = some 0
    ∧ (0 : ℕ) ≠ 1 := by
  constructor
  · simp [Spectra_set_data, colSum]
  · decide

/-- C3 (amended): pushing a frame whose width differs from the buffer's
width drops the frame silently: no exception is raised (the result is
`some _`), the buffer contents (raw and spectral) are unchanged, and the
cursor is unchanged except that a cursor sitting past the end of the buffer
(`index ≥ depth`, left behind by the push that filled the last slot) is
first wrapped to 0. -/
theorem claim_C3_push_mismatch (s : SpectraState) (data : List (List ℝ)) (w : ℕ)
    (hdepth : 1 ≤ s.raw_data.length)
    (hrows : ∀ r ∈ s.raw_data, r.length = w)
    (hmis : (data.headD []).length ≠ w) :
    Spectra_set_data s data =
      some { s with index := if s.raw_data.length ≤ s.index then 0 else s.index } := by
  have hi : (if s.raw_data.length ≤ s.index then 0 else s.index) < s.raw_data.length := by
    split <;> omega
  have hslot : s.raw_data[if s.raw_data.length ≤ s.index then 0 else s.index]? =
      some (s.raw_data[if s.raw_data.length ≤ s.index then 0 else s.index]) :=
    List.getElem?_eq_getElem hi
  have hlen : (s.raw_data[if s.raw_data.length ≤ s.index then 0 else s.index]).length = w :=
    hrows _ (List.getElem_mem hi)
  unfold Spectra_set_data
  simp only [hslot, length_colSum]
  rw [if_neg (by rw [hlen]; exact hmis)]

theorem claim_C3_push_mismatch_witness :
    1 ≤ ([[(0:ℝ)]] : List (List ℝ)).length
    ∧ Spectra_set_data
        { pixel_count := 1, index := 0, raw_data := [[0]], fft_data := [[0, 0, 0, 0]] }
        [[1, 2]] =
      some { pixel_count := 1, index := 0, raw_data := [[0]], fft_data := [[0, 0, 0, 0]] } := by
  refine ⟨by decide, ?_⟩
  have h := claim_C3_push_mismatch
    { pixel_count := 1, index := 0, raw_data := [[0]], fft_data := [[0, 0, 0, 0]] }
    [[1, 2]] 1 (by decide) (by intro r hr; simp at hr; simp [hr]) (by simp)
  simpa using h

/-- C4: pushing the scalar 1-sample frames 1,2,3,4 into a freshly reset
depth-4 accumulation buffer yields the running average 2.5; a 5th frame 5
overwrites slot 0, leaving the buffer `[5,2,3,4]` with average 3.5.
(Here `average()` is the `np.average(self.raw_data, axis=0)` computed
inside `Spectra.set_data`.) -/
theorem claim_C4_accumulator_average :
    (pushRows (Spectra_set_accum (initSpectra 1) 4) [[1], [2], [3], [4]]).map
        (fun s => colAvg s.raw_data) = some [2.5]
    ∧ (pushRows (Spectra_set_accum (initSpectra 1) 4) [[1], [2], [3], [4], [5]]).map
        (fun s => (s.raw_data, colAvg s.raw_data)) = some ([[5], [2], [3], [4]], [3.5]) := by
  constructor
  · simp [pushRows, Spectra_set_data, Spectra_set_accum, initSpectra, colSum, colAvg,
      List.replicate, List.range_succ]
    norm_num
  · simp [pushRows, Spectra_set_data, Spectra_set_accum, initSpectra, colSum, colAvg,
      List.replicate, List.range_succ]
    norm_num

/-- C5: after `depth + k` successful pushes of matching-width frames into a
freshly reset depth-`depth` accumulation buffer, the buffer contains
exactly the last `depth` pushed frames: frame number `m` (for the last
`depth` values of `m`) sits in slot `m % depth`, the slot its push wrote,
and the cursor has advanced `depth + k` times circularly
(`index ≡ depth + k [MOD depth]`). -/
theorem claim_C5_circular_wrap (d k w : ℕ) (rows : List (List ℝ))
    (hd : 1 ≤ d) (hlen : rows.length = d + k) (hw : ∀ r ∈ rows, r.length = w) :
    ∃ s, pushRows (Spectra_set_accum (initSpectra w) d) rows = some s ∧
      s.index % d = rows.length % d ∧
      ∀ m, rows.length ≤ m + d → m < rows.length →
        s.raw_data[m % d]? = some (rows.getD m []) := by
  obtain ⟨s, hpush, hblen, hmem, hindex, hslots⟩ := pushRows_inv d w hd rows hw
  refine ⟨s, hpush, ?_, ?_⟩
  · rw [hindex, if_neg (by omega)]
    exact succ_mod_of_pred hd (by omega)
  · intro m hm1 hm2
    rw [hslots (m % d) (Nat.mod_lt _ hd), slotAfter_last hd rows m hm1 hm2]

theorem claim_C5_circular_wrap_witness :
    ([[1], [2], [3]] : List (List ℝ)).length = 2 + 1
    ∧ ∃ s, pushRows (Spectra_set_accum (initSpectra 1) 2) [[1], [2], [3]] = some s ∧
        s.index % 2 = ([[1], [2], [3]] : List (List ℝ)).length % 2 ∧
        ∀ m, ([[1], [2], [3]] : List (List ℝ)).length ≤ m + 2 →
          m < ([[1], [2], [3]] : List (List ℝ)).length →
          s.raw_data[m % 2]? = some (([[1], [2], [3]] : List (List ℝ)).getD m []) := by
  refine ⟨rfl, claim_C5_circular_wrap 2 1 1 [[1], [2], [3]] (by norm_num) rfl ?_⟩
  intro r hr
  simp only [List.mem_cons, List.not_mem_nil, or_false] at hr
  rcases hr with h | h | h <;> simp [h]

/-- C6: the Raman-shift axis maps invert each other exactly (hence within
any relative tolerance, in particular 1e-6) on the valid range
`0 < λmin < λ0`, `Δ·λ0 < 1e7`, `λ ≥ λmin`; and concretely at `λ0 = 532` the
shift of 532 nm is 0 and the wavelength of shift 0 is 532 nm. -/
theorem claim_C6_axis_roundtrip (junk lamMin lam0 shift lam : ℝ)
    (h1 : 0 < lamMin) (h2 : lamMin < lam0) (h3 : shift * lam0 < 1e7) (h4 : lamMin ≤ lam) :
    |Spectra_raman junk lam0 (Spectra_invraman junk lam0 shift) - shift| ≤ 1e-6 * |shift|
    ∧ |Spectra_invraman junk lam0 (Spectra_raman junk lam0 lam) - lam| ≤ 1e-6 * |lam|
    ∧ Spectra_raman junk 532 532 = 0
    ∧ Spectra_invraman junk 532 0 = 532 := by
  have hlam0 : 0 < lam0 := lt_trans h1 h2
  have hlam : 0 < lam := lt_of_lt_of_le h1 h4
  have hden : 0 < 1 / lam0 - shift / 1e7 := by
    rw [sub_pos, div_lt_div_iff₀ (by norm_num) hlam0]
    linarith
  refine ⟨?_, ?_, ?_, ?_⟩
  · have e1 : Spectra_raman junk lam0 (Spectra_invraman junk lam0 shift) = shift := by
      unfold Spectra_raman Spectra_invraman Spectra_inv
      rw [if_pos (ne_of_gt hden), if_pos (one_div_ne_zero (ne_of_gt hden)),
        one_div_one_div]
      field_simp
      ring
    rw [e1, sub_self, abs_zero]
    positivity
  · have e2 : Spectra_invraman junk lam0 (Spectra_raman junk lam0 lam) = lam := by
      unfold Spectra_raman Spectra_invraman Spectra_inv
      rw [if_pos hlam.ne']
      have harg : 1 / lam0 - 1e7 * (1 / lam0 - 1 / lam) / 1e7 = 1 / lam := by
        field_simp
        ring
      rw [harg, if_pos (one_div_ne_zero hlam.ne'), one_div_one_div]
    rw [e2, sub_self, abs_zero]
    positivity
  · unfold Spectra_raman Spectra_inv
    rw [if_pos (by norm_num : (532:ℝ) ≠ 0)]
    ring
  · unfold Spectra_invraman Spectra_inv
    rw [if_pos (by norm_num : (1:ℝ) / 532 - 0 / 1e7 ≠ 0)]
    norm_num

theorem claim_C6_axis_roundtrip_witness :
    (0:ℝ) < 500 ∧ (500:ℝ) < 532 ∧ (100:ℝ) * 532 < 1e7 ∧ (500:ℝ) ≤ 532
    ∧ (|Spectra_raman 0 532 (Spectra_invraman 0 532 100) - 100| ≤ 1e-6 * |(100:ℝ)|
      ∧ |Spectra_invraman 0 532 (Spectra_raman 0 532 532) - 532| ≤ 1e-6 * |(532:ℝ)|
      ∧ Spectra_raman 0 532 532 = 0
      ∧ Spectra_invraman 0 532 0 = 532) :=
  ⟨by norm_num, by norm_num, by norm_num, by norm_num,
    claim_C6_axis_roundtrip 0 500 532 100 532 (by norm_num) (by norm_num) (by norm_num)
      (by norm_num)⟩

/-- C7 counterexample: at `x = 0` the `np.divide(1, x, where=x!=0)` entry is
left uninitialised; if the output allocation happened to hold 1 the
function returns 1, not the claimed 0. -/
theorem claim_C7_counterexample : Spectra_inv 1 0 = 1 ∧ (1 : ℝ) ≠ 0 := by
  constructor
  · unfold Spectra_inv
    simp
  · norm_num

/-- C7 (amended): the inverse operation returns `1/x` whenever `x ≠ 0`; at
`x = 0` the entry is left uninitialised by `np.divide`'s `where=` mask, so
no particular value (in particular not 0) is guaranteed. -/
theorem claim_C7_inverse (junk x : ℝ) (hx : x ≠ 0) : Spectra_inv junk x = 1 / x := by
  unfold Spectra_inv
  rw [if_pos hx]

theorem claim_C7_inverse_witness : (2:ℝ) ≠ 0 ∧ Spectra_inv 0 2 = 1 / 2 :=
  ⟨by norm_num, claim_C7_inverse 0 2 (by norm_num)⟩

/-- C8: both cameras' `setExposure(e)` silently clamps `e` into the declared
`[min, max]` bounds before applying it, and performs no hardware command
write (and leaves the state untouched) when the clamped value equals the
cached current exposure. -/
theorem claim_C8_set_exposure_clamp (sT : TCE1304State) (sS : SK2048State) (e : ℝ) :
    ((TCE1304_set_exposure sT e).1.exposure = clampTwoStep sT.min_exposure sT.max_exposure e
      ∧ (sT.min_exposure ≤ sT.max_exposure →
          sT.min_exposure ≤ (TCE1304_set_exposure sT e).1.exposure
          ∧ (TCE1304_set_exposure sT e).1.exposure ≤ sT.max_exposure)
      ∧ (clampTwoStep sT.min_exposure sT.max_exposure e = sT.exposure →
          TCE1304_set_exposure sT e = (sT, [])))
    ∧ ((SK2048_set_exposure sS e).1.exposure = clampTwoStep sS.min_exposure sS.max_exposure e
      ∧ (sS.min_exposure ≤ sS.max_exposure →
          sS.min_exposure ≤ (SK2048_set_exposure sS e).1.exposure
          ∧ (SK2048_set_exposure sS e).1.exposure ≤ sS.max_exposure)
      ∧ (clampTwoStep sS.min_exposure sS.max_exposure e = sS.exposure →
          SK2048_set_exposure sS e = (sS, []))) := by
  have haT : (TCE1304_set_exposure sT e).1.exposure =
      clampTwoStep sT.min_exposure sT.max_exposure e := by
    by_cases hne : clampTwoStep sT.min_exposure sT.max_exposure e ≠ sT.exposure
    · simp only [TCE1304_set_exposure]
      rw [if_pos (by unfold clampTwoStep at hne; exact hne)]
      rfl
    · simp only [TCE1304_set_exposure]
      rw [if_neg (by unfold clampTwoStep at hne; exact hne)]
      exact (not_ne_iff.mp hne).symm
  have haS : (SK2048_set_exposure sS e).1.exposure =
      clampTwoStep sS.min_exposure sS.max_exposure e := by
    by_cases hne : clampTwoStep sS.min_exposure sS.max_exposure e ≠ sS.exposure
    · simp only [SK2048_set_exposure]
      rw [if_pos (by unfold clampTwoStep at hne; exact hne)]
      rfl
    · simp only [SK2048_set_exposure]
      rw [if_neg (by unfold clampTwoStep at hne; exact hne)]
      exact (not_ne_iff.mp hne).symm
  refine ⟨⟨haT, ?_, ?_⟩, haS, ?_, ?_⟩
  · intro hb
    rw [haT]
    exact clampTwoStep_mem _ _ _ hb
  · intro hc
    unfold clampTwoStep at hc
    simp only [TCE1304_set_exposure]
    rw [if_neg (fun hne => hne hc)]
  · intro hb
    rw [haS]
    exact clampTwoStep_mem _ _ _ hb
  · intro hc
    unfold clampTwoStep at hc
    simp only [SK2048_set_exposure]
    rw [if_neg (fun hne => hne hc)]

theorem claim_C8_set_exposure_clamp_witness :
    (0.1 : ℝ) ≤ 1000
    ∧ clampTwoStep 0.1 1000 10 = (10 : ℝ)
    ∧ (0.1 : ℝ) ≤ (TCE1304_set_exposure ⟨10, 0.1, 1000, 100⟩ 10).1.exposure
    ∧ TCE1304_set_exposure ⟨10, 0.1, 1000, 100⟩ 10 = (⟨10, 0.1, 1000, 100⟩, [])
    ∧ SK2048_set_exposure ⟨10, 1, 2000⟩ 10 = (⟨10, 1, 2000⟩, []) := by
  have hcT : clampTwoStep 0.1 1000 10 = (10 : ℝ) := by
    unfold clampTwoStep
    norm_num
  have hcS : clampTwoStep 1 2000 10 = (10 : ℝ) := by
    unfold clampTwoStep
    norm_num
  have h := claim_C8_set_exposure_clamp ⟨10, 0.1, 1000, 100⟩ ⟨10, 1, 2000⟩ 10
  exact ⟨by norm_num, hcT, (h.1.2.1 (by norm_num)).1, h.1.2.2 hcT, h.2.2.2 hcS⟩

/-- C9: `get_frame()` fails exactly when the transfer is malformed/short or
the echoed exposure word (index 3833) differs from the exposure register
previously written to the device; on a well-formed transfer it returns a
3648-pixel frame and raises nothing. -/
theorem claim_C9_get_frame_errors (reg : ℤ) (resp : List ℕ) :
    (exceptOk (TCE1304_get_frame reg resp) = true
      ↔ 3834 ≤ resp.length ∧ (resp.getD 3833 0 : ℤ) = reg)
    ∧ ∀ f, TCE1304_get_frame reg resp = .ok f → f.length = 3648 := by
  by_cases h1 : resp.length < 3834
  · have hval : TCE1304_get_frame reg resp = .error .shortTransfer := by
      unfold TCE1304_get_frame
      rw [if_pos h1]
    rw [hval]
    constructor
    · constructor
      · intro h
        exact absurd h (by simp [exceptOk])
      · intro h
        exact absurd h.1 (by omega)
    · intro f hf
      exact absurd hf (by simp)
  · by_cases h2 : (resp.getD 3833 0 : ℤ) ≠ reg
    · have hval : TCE1304_get_frame reg resp = .error .dataReadError := by
        unfold TCE1304_get_frame
        rw [if_neg h1, if_pos h2]
      rw [hval]
      constructor
      · constructor
        · intro h
          exact absurd h (by simp [exceptOk])
        · intro h
          exact absurd h.2 h2
      · intro f hf
        exact absurd hf (by simp)
    · have hval : TCE1304_get_frame reg resp =
          .ok ((List.range 3648).map fun i => ((resp.getD (32 + i) 0 : ℝ) -
            ((List.range 13).map fun i => (resp.getD (16 + i) 0 : ℝ)).sum / 13) / 65536) := by
        unfold TCE1304_get_frame
        rw [if_neg h1, if_neg h2]
      rw [hval]
      constructor
      · constructor
        · intro _
          exact ⟨by omega, not_ne_iff.mp h2⟩
        · intro _
          simp [exceptOk]
      · intro f hf
        rw [← Except.ok.inj hf]
        simp

theorem claim_C9_get_frame_errors_witness :
    exceptOk (TCE1304_get_frame 100 (List.replicate 3834 100)) = true :=
  (claim_C9_get_frame_errors 100 (List.replicate 3834 100)).1.mpr
    ⟨by rw [List.length_replicate], by
      rw [List.getD_eq_getElem?_getD, List.getElem?_replicate, if_pos (by norm_num)]
      rfl⟩

/-- C10: `Spectra.set_accum` zero-fills both accumulation buffers and resets
the cursor to 0, so the running average is the all-zero trace immediately
after a reset; and after `k < depth` pushes following a reset the average
is the elementwise sum of the `k` pushed frames divided by `depth` (the
remaining `depth − k` zero rows take part in the mean), not by `k`. -/
theorem claim_C10_reset_and_partial_average (w d k : ℕ) (rows : List (List ℝ))
    (hd : 1 ≤ d) (hk : k < d) (hlen : rows.length = k) (hw : ∀ r ∈ rows, r.length = w) :
    (Spectra_set_accum (initSpectra w) d).index = 0
    ∧ (Spectra_set_accum (initSpectra w) d).raw_data
        = List.replicate d (List.replicate w 0)
    ∧ (Spectra_set_accum (initSpectra w) d).fft_data
        = List.replicate d (List.replicate (4 * w) 0)
    ∧ colAvg (Spectra_set_accum (initSpectra w) d).raw_data = List.replicate w 0
    ∧ ∃ s, pushRows (Spectra_set_accum (initSpectra w) d) rows = some s ∧
        colAvg s.raw_data = (colSum w rows).map (fun v => v / (d : ℝ)) := by
  refine ⟨rfl, rfl, rfl, colAvg_replicate_zero d w hd, ?_⟩
  obtain ⟨s, hpush, hraw⟩ := pushRows_partial d w k hd (le_of_lt hk) rows hlen hw
  refine ⟨s, hpush, ?_⟩
  rw [hraw]
  exact colAvg_append_pad w d k hd (le_of_lt hk) rows hlen hw

theorem claim_C10_reset_and_partial_average_witness :
    ([[3]] : List (List ℝ)).length = 1
    ∧ ((Spectra_set_accum (initSpectra 1) 2).index = 0
      ∧ (Spectra_set_accum (initSpectra 1) 2).raw_data
          = List.replicate 2 (List.replicate 1 0)
      ∧ (Spectra_set_accum (initSpectra 1) 2).fft_data
          = List.replicate 2 (List.replicate (4 * 1) 0)
      ∧ colAvg (Spectra_set_accum (initSpectra 1) 2).raw_data = List.replicate 1 0
      ∧ ∃ s, pushRows (Spectra_set_accum (initSpectra 1) 2) [[3]] = some s ∧
          colAvg s.raw_data = (colSum 1 [[3]]).map (fun v => v / (2 : ℝ))) := by
  refine ⟨rfl, claim_C10_reset_and_partial_average 1 2 1 [[3]] (by norm_num) (by norm_num) rfl ?_⟩
  intro r hr
  simp only [List.mem_cons, List.not_mem_nil, or_false] at hr
  simp [hr]

end FtRaman
